import Mathlib

/-!
# Verification of the rule-aggregation pipeline (`merge_rules.py` / `process_rules.py`)

Shallow embedding of the rule-merging scripts.  Documents are modelled as
their list of lines (the value of Python's `str.splitlines()`); rule sets are
`Finset String`; Python string operations are modelled by executable
functions on `String` working through the underlying `List Char`
(`String.data`), which matches Python's code-point view of strings.
Whitespace is `Char.isWhitespace` (space, tab, CR, LF), covering the
whitespace actually occurring in rule documents.
-/

namespace Rules

/-! ## Python-style string primitives -/

/-- Python `str.strip()` on the character list: drop whitespace from both ends. -/
def stripChars (l : List Char) : List Char :=
  ((l.dropWhile fun c => c.isWhitespace).reverse.dropWhile fun c => c.isWhitespace).reverse

/-- Python `line.strip()`. -/
def pyStrip (s : String) : String := ⟨stripChars s.data⟩

/-- Python `s.startswith(p)`. -/
def startsWithS (s p : String) : Bool := p.data.isPrefixOf s.data

/-- Python `s.endswith(p)`. -/
def endsWithS (s p : String) : Bool := p.data.isSuffixOf s.data

/-- Python `s.lower()` (ASCII lowering, sufficient for the rule alphabets used). -/
def lowerS (s : String) : String := ⟨s.data.map Char.toLower⟩

/-- Python `s[1:]`. -/
def strTail (s : String) : String := ⟨s.data.drop 1⟩

/-- Python `s[n:]`. -/
def strDrop (s : String) (n : Nat) : String := ⟨s.data.drop n⟩

/-- Python `pat in s` (substring test), on character lists. -/
def hasSub (pat : List Char) : List Char → Bool
  | [] => pat.isEmpty
  | c :: t => pat.isPrefixOf (c :: t) || hasSub pat t

/-- The characters of `s.split(pat)[0]`: everything strictly before the first
occurrence of `pat` (the whole list if `pat` does not occur). -/
def takeBefore (pat : List Char) : List Char → List Char
  | [] => []
  | c :: t => if pat.isPrefixOf (c :: t) then [] else c :: takeBefore pat t

/-! ## Rule classifier (`merge_rules.categorize_rules`, lines 318-373)

The three regexes of `categorize_rules` are hand-compiled to executable
matchers.  In each, a bounded `\d{lo,hi}` repetition is followed by a
non-digit atom (`.`, `/` or end of string), so greedy matching with a length
check is equivalent to the backtracking regex semantics. -/

/-- Character class `[a-zA-Z0-9]`. -/
def isAlnumAscii (c : Char) : Bool :=
  c.isDigit || ('a' ≤ c && c ≤ 'z') || ('A' ≤ c && c ≤ 'Z')

/-- Character class `[a-zA-Z]`. -/
def isAlphaAscii (c : Char) : Bool := ('a' ≤ c && c ≤ 'z') || ('A' ≤ c && c ≤ 'Z')

/-- Consume a `\d{lo,hi}` group from the front; `none` if the greedy digit
run does not have the right length. -/
def chompDigits (lo hi : Nat) (l : List Char) : Option (List Char) :=
  let ds := l.takeWhile Char.isDigit
  if lo ≤ ds.length ∧ ds.length ≤ hi then some (l.drop ds.length) else none

/-- Consume one expected character. -/
def chompChar (c : Char) : List Char → Option (List Char)
  | [] => none
  | d :: t => if d = c then some t else none

/-- Matcher for `ip_cidr_pattern = ^(\d{1,3}\.\d{1,3}\.\d{1,3}\.\d{1,3}(/\d{1,2})?)$`. -/
def ipCidrMatch (s : String) : Bool :=
  (do
    let r ← chompDigits 1 3 s.data
    let r ← chompChar '.' r
    let r ← chompDigits 1 3 r
    let r ← chompChar '.' r
    let r ← chompDigits 1 3 r
    let r ← chompChar '.' r
    let r ← chompDigits 1 3 r
    match r with
    | [] => some ()
    | '/' :: r2 => do
        let r3 ← chompDigits 1 2 r2
        if r3 = [] then some () else none
    | _ => none).isSome

/-- Matcher for `ipv6_cidr_pattern = ^([0-9a-fA-F:]+(/\d{1,3})?)$`. -/
def ipv6CidrMatch (s : String) : Bool :=
  let cls := fun c => c.isDigit || ('a' ≤ c && c ≤ 'f') || ('A' ≤ c && c ≤ 'F') || c = ':'
  let pre := s.data.takeWhile cls
  let rest := s.data.drop pre.length
  decide (pre ≠ []) &&
    (match rest with
     | [] => true
     | '/' :: r => decide (r ≠ []) && decide (r.length ≤ 3) && r.all Char.isDigit
     | _ => false)

/-- One `[a-zA-Z0-9][-a-zA-Z0-9]*[a-zA-Z0-9]` label (length ≥ 2, alphanumeric
ends, interior alphanumeric or `-`). -/
def labelOk (l : List Char) : Bool :=
  decide (2 ≤ l.length) && isAlnumAscii (l.headD ' ') && isAlnumAscii (l.getLastD ' ') &&
    ((l.drop 1).dropLast.all fun c => isAlnumAscii c || c = '-')

/-- TLD atom `([a-zA-Z]{2,})` with nothing following. -/
def tldOk (l : List Char) : Bool := decide (2 ≤ l.length) && l.all isAlphaAscii

/-- Python `s.split(sep)` for a single separator character. -/
def splitOnChar (sep : Char) : List Char → List (List Char)
  | [] => [[]]
  | c :: rest =>
    let r := splitOnChar sep rest
    if c = sep then [] :: r
    else
      match r with
      | h :: t => (c :: h) :: t
      | [] => [[c]]

/-- Matcher for `domain_keyword_pattern = ^([a-zA-Z0-9][-a-zA-Z0-9]*[a-zA-Z0-9]\.)+([a-zA-Z]{2,})$`.
Since `.` cannot occur inside a label or the TLD atom, a match decomposes
uniquely along the dots, so the regex is equivalent to this split-based test. -/
def domainPatternMatch (s : String) : Bool :=
  let parts := splitOnChar '.' s.data
  decide (2 ≤ parts.length) && parts.dropLast.all labelOk && tldOk (parts.getLastD [])

/-- Result of classifying a single token: either passed through verbatim as an
already-typed rule (`pre`), or a freshly typed rule (`typed`). -/
inductive RuleClass where
  | pre (rule : String)
  | typed (t : String) (v : String)
deriving DecidableEq

/-- The textual form of a classified rule, as it would appear in an output
document. -/
def renderClass : RuleClass → String
  | .pre s => s
  | .typed t v => t ++ "," ++ v

/-- The already-typed prefixes recognised by `categorize_rules` (lines 330-334),
in source order. -/
def categorizeTyped : List String :=
  ["DOMAIN,", "DOMAIN-SUFFIX,", "DOMAIN-KEYWORD,", "IP-CIDR,", "IP-CIDR6,", "PROCESS-NAME,",
   "USER-AGENT,", "IP-ASN,", "DOMAIN:", "DOMAIN-SUFFIX:", "DOMAIN-KEYWORD:", "IP-CIDR:",
   "IP-CIDR6:", "PROCESS-NAME:", "USER-AGENT:", "IP-ASN:"]

/-- The loop body of `categorize_rules` (lines 328-371), classifying one rule.
The second and third `startswith` tests are kept from the source even though
the first test subsumes them. -/
def categorizeRule (rule : String) : RuleClass :=
  if categorizeTyped.any (fun p => startsWithS rule p) then .pre rule
  else if startsWithS rule "USER-AGENT," || startsWithS rule "USER-AGENT:" then .pre rule
  else if startsWithS rule "IP-ASN," || startsWithS rule "IP-ASN:" then .pre rule
  else if ipCidrMatch rule then .typed "IP-CIDR" rule
  else if ipv6CidrMatch rule && rule.data.contains ':' then .typed "IP-CIDR6" rule
  else if startsWithS rule "." then .typed "DOMAIN-SUFFIX" (strTail rule)
  else if startsWithS rule "*." then .typed "DOMAIN-SUFFIX" (strDrop rule 2)
  else if domainPatternMatch rule then .typed "DOMAIN" rule
  else if startsWithS (lowerS rule) "user-agent," then .typed "USER-AGENT" (strDrop rule 11)
  else if startsWithS (lowerS rule) "ip-asn," then .typed "IP-ASN" (strDrop rule 7)
  else .typed "DOMAIN-KEYWORD" rule

/-! ## Length/structure facts about `stripChars`, needed for termination -/

theorem stripChars_within (l : List Char) : stripChars l <:+: l := by
  have h1 : (l.dropWhile fun c => c.isWhitespace) <:+ l := List.dropWhile_suffix _
  have h2 : stripChars l <+: (l.dropWhile fun c => c.isWhitespace) := by
    rw [← List.reverse_suffix]
    unfold stripChars
    rw [List.reverse_reverse]
    exact List.dropWhile_suffix _
  exact h2.isInfix.trans h1.isInfix

theorem stripChars_length_le (l : List Char) : (stripChars l).length ≤ l.length :=
  (stripChars_within l).sublist.length_le

/-! ## Payload-document parser
(`merge_rules.process_yaml_content`, lines 97-165, and
`process_rules.parse_yaml_content`, lines 47-115) -/

/-- The final clean-up of both payload parsers (and of the writer):
`while rule.startswith('-'): rule = rule[1:].strip()`.  The loop is run with
an explicit iteration bound so that it is structurally recursive; each
iteration strictly shortens the string, so a bound equal to the initial
length can never be exhausted before the loop condition fails, and the
function computes exactly what the unbounded `while` loop does. -/
def stripDashesAux : Nat → List Char → List Char
  | 0, l => l
  | fuel + 1, l =>
    if ['-'].isPrefixOf l then stripDashesAux fuel (stripChars (l.drop 1)) else l

/-- Iterated dash stripping of one rule string. -/
def stripDashes (s : String) : String := ⟨stripDashesAux s.data.length s.data⟩

/-- Lines after the first line whose trimmed content is exactly `payload:`
(`for i, line in enumerate(lines): if line.strip() == 'payload:'`), if any. -/
def findPayload : List String → Option (List String)
  | [] => none
  | l :: ls => if pyStrip l = "payload:" then some ls else findPayload ls

/-- The inner scan of the payload section (lines 110-129): skip blank and `#`
lines, stop at the first non-dash line, collect the dash items. -/
def payloadScan : List String → Finset String
  | [] => ∅
  | l :: ls =>
    let st := pyStrip l
    if st = "" || startsWithS st "#" then payloadScan ls
    else if !startsWithS st "-" then ∅
    else
      let r := pyStrip (strTail st)
      if r = "" then payloadScan ls else insert r (payloadScan ls)

/-- The tokens produced by the standard payload scan (empty when no
`payload:` line exists). -/
def payloadRules (lines : List String) : Finset String :=
  match findPayload lines with
  | some rest => payloadScan rest
  | none => ∅

/-- The comment-marker prefixes of the plain parser and of the merge fallback
(line 153). -/
def commentMarks : List String := ["#", "!", "/", ";", "[", "payload:"]

/-- Fallback scan of `merge_rules.process_yaml_content` (lines 139-154):
dash lines yield their stripped content; other non-comment lines are kept
verbatim. -/
def fallbackScanMerge : List String → Finset String
  | [] => ∅
  | l :: ls =>
    let st := pyStrip l
    if st = "" || startsWithS st "#" || st = "payload:" then fallbackScanMerge ls
    else if startsWithS st "-" then
      let r := pyStrip (strTail st)
      if r = "" then fallbackScanMerge ls else insert r (fallbackScanMerge ls)
    else if !commentMarks.any (fun p => startsWithS st p) then insert st (fallbackScanMerge ls)
    else fallbackScanMerge ls

/-- Fallback scan of `process_rules.parse_yaml_content` (lines 92-104): only
dash lines yield tokens. -/
def fallbackScanProcess : List String → Finset String
  | [] => ∅
  | l :: ls =>
    let st := pyStrip l
    if st = "" || startsWithS st "#" || st = "payload:" then fallbackScanProcess ls
    else if startsWithS st "-" then
      let r := pyStrip (strTail st)
      if r = "" then fallbackScanProcess ls else insert r (fallbackScanProcess ls)
    else fallbackScanProcess ls

/-- Model of `merge_rules.process_yaml_content`: standard payload scan, fallback over
the whole document when no `payload:` line was found or the scan produced no
token, then the dash clean-up pass over the accumulated set. -/
def process_yaml_content (lines : List String) : Finset String :=
  let scanned := payloadRules lines
  let rules :=
    if (findPayload lines).isSome = true ∧ scanned ≠ ∅ then scanned
    else scanned ∪ fallbackScanMerge lines
  rules.image stripDashes

/-- Model of `process_rules.parse_yaml_content`: as `process_yaml_content` but the
fallback collects dash lines only. -/
def parse_yaml_content (lines : List String) : Finset String :=
  let scanned := payloadRules lines
  let rules :=
    if (findPayload lines).isSome = true ∧ scanned ≠ ∅ then scanned
    else scanned ∪ fallbackScanProcess lines
  rules.image stripDashes

/-! ### Spec-side description of the fallback extraction (for the refinement
claim about the fallback).  Following the spec's words: in the fallback, a
dash-prefixed non-comment line contributes its content with the leading dash
and surrounding whitespace stripped (repeatedly, to tolerate multi-dash
lines); other lines contribute nothing. -/

/-- Spec-side: token contributed by one line in the fallback, dash lines only. -/
def specDashToken (l : String) : Option String :=
  let st := pyStrip l
  if st = "" || startsWithS st "#" then none
  else if startsWithS st "-" then
    let r := pyStrip (strTail st)
    if r = "" then none else some (stripDashes r)
  else none

/-- Spec-side: the fallback token set, from dash lines only. -/
def specFallbackDashTokens (lines : List String) : Finset String :=
  (lines.filterMap specDashToken).toFinset

/-- The extra tokens that the `merge_rules` fallback admits beyond the spec's
description: non-dash lines that do not start with a comment marker are kept
verbatim. -/
def specPlainToken (l : String) : Option String :=
  let st := pyStrip l
  if st = "" || startsWithS st "#" || st = "payload:" then none
  else if startsWithS st "-" then none
  else if commentMarks.any (fun p => startsWithS st p) then none
  else some st

/-- The set of those extra plain tokens. -/
def specPlainTokens (lines : List String) : Finset String :=
  (lines.filterMap specPlainToken).toFinset

/-! ## ASN parser (`merge_rules.process_asn_content`, lines 167-199) -/

/-- The per-line transformation of `process_asn_content`: skip blank and `#`
lines, cut everything from the first `//`, then guarantee exactly one
`,no-resolve` suffix. -/
def asnLine (line : String) : Option String :=
  let l := pyStrip line
  if l = "" then none
  else if startsWithS l "#" then none
  else
    let l2 := if hasSub ['/', '/'] l.data then pyStrip ⟨takeBefore ['/', '/'] l.data⟩ else l
    if l2 = "" then none
    else if endsWithS (lowerS l2) ",no-resolve" then some l2
    else some (l2 ++ ",no-resolve")

/-- Model of `process_asn_content` over the document's lines. -/
def process_asn_content (lines : List String) : Finset String :=
  (lines.filterMap asnLine).toFinset

/-! ## Fetcher (`merge_rules.download_content`, lines 36-95)

Network behaviour is abstracted by an oracle giving the outcome of every
attempt; a successful attempt carries the fetched document as its lines.
`FetchResult` additionally instruments the loop with the number of loop
iterations run (`attempts`) and of `time.sleep` calls made (`sleeps`). -/

/-- Outcome of one `requests.get` attempt.  `httpError` is a
`RequestException` carrying a response with the given status code;
`connError` is a `RequestException` without a response; `unexpected` is any
non-`requests` exception. -/
inductive AttemptOutcome where
  | success (content : List String)
  | timeout
  | httpError (status : Nat)
  | connError
  | unexpected
deriving DecidableEq

/-- Result of the whole download loop. -/
structure FetchResult where
  rules : Finset String
  attempts : Nat
  sleeps : Nat
deriving DecidableEq

/-- The plain list branch of `download_content` (lines 65-66): strip each
line, drop blanks and lines starting with a comment marker. -/
def plainParse (content : List String) : Finset String :=
  (content.filterMap fun l =>
    let st := pyStrip l
    if st ≠ "" ∧ ¬(commentMarks.any fun p => startsWithS st p) = true then some st
    else none).toFinset

/-- The YAML sniff of `download_content` (line 55): URL extension or a
`payload:` substring anywhere in the body. -/
def downloadIsYaml (url : String) (content : List String) : Bool :=
  endsWithS (lowerS url) ".yaml" || endsWithS (lowerS url) ".yml" ||
    content.any fun l => hasSub "payload:".data l.data

/-- Processing of a successfully fetched body (lines 53-67). -/
def parseDownloaded (url : String) (content : List String) : Finset String :=
  if downloadIsYaml url content then process_yaml_content content else plainParse content

/-- The retry loop of `download_content` from loop counter `attempt` on:
success returns the parsed rules; a timeout or a response-less / non-4xx
`RequestException` advances the counter, sleeping only when another attempt
remains; a 4xx client error or an unexpected exception breaks out at once. -/
def downloadFrom (url : String) (outcomes : Nat → AttemptOutcome) :
    Nat → Nat → FetchResult
  | _, 0 => ⟨∅, 0, 0⟩
  | attempt, remaining + 1 =>
    match outcomes attempt with
    | .success content => ⟨parseDownloaded url content, 1, 0⟩
    | .timeout =>
      let r := downloadFrom url outcomes (attempt + 1) remaining
      ⟨r.rules, r.attempts + 1, if 0 < remaining then r.sleeps + 1 else r.sleeps⟩
    | .httpError s =>
      if 400 ≤ s ∧ s < 500 then ⟨∅, 1, 0⟩
      else
        let r := downloadFrom url outcomes (attempt + 1) remaining
        ⟨r.rules, r.attempts + 1, if 0 < remaining then r.sleeps + 1 else r.sleeps⟩
    | .connError =>
      let r := downloadFrom url outcomes (attempt + 1) remaining
      ⟨r.rules, r.attempts + 1, if 0 < remaining then r.sleeps + 1 else r.sleeps⟩
    | .unexpected => ⟨∅, 1, 0⟩

/-- Model of `download_content url`: the retry loop started at attempt 0, with
`retries` attempts remaining (`remaining` in `downloadFrom` stands for
`retries - attempt`, so `attempt < retries` becomes `0 < remaining` and the
`time.sleep` guard `attempt + 1 < retries` becomes `0 < remaining - 1`). -/
def download_content (url : String) (outcomes : Nat → AttemptOutcome) (retries : Nat) :
    FetchResult :=
  downloadFrom url outcomes 0 retries

/-- An attempt outcome that the loop retries after: a timeout, a
response-less `RequestException`, or one whose response status is not 4xx. -/
def retriable : AttemptOutcome → Prop
  | .timeout => True
  | .connError => True
  | .httpError s => ¬(400 ≤ s ∧ s < 500)
  | _ => False

/-! ## Source loading and aggregation
(`merge_rules.process_source_file`, lines 375-507, and
`merge_rules.process_asn_source_file`, lines 245-316)

The download step is abstracted by `fetch : String → Finset String` giving
the rule set each URL contributes (the `rules` component of its
`FetchResult`); the final accumulated set is a union, so the completion
order of the thread pool does not affect it. -/

/-- Reading a source descriptor (lines 386-398): strip each line, drop blanks
and `#`-comments, URLs (in order) apart from literal rules. -/
def readSource : List String → List String × Finset String
  | [] => ([], ∅)
  | l :: ls =>
    let r := readSource ls
    let st := pyStrip l
    if st = "" || startsWithS st "#" then r
    else if startsWithS st "http://" || startsWithS st "https://" then (st :: r.1, r.2)
    else (r.1, insert st r.2)

/-- Aggregation `all_rules = direct_rules.copy()` then `all_rules.update(...)` per URL
(lines 413-427). -/
def collectAllRules (direct : Finset String) (urlRules : List (Finset String)) : Finset String :=
  urlRules.foldl (· ∪ ·) direct

/-- The collected rule set of one source descriptor. -/
def collectedRules (sourceLines : List String) (fetch : String → Finset String) : Finset String :=
  collectAllRules (readSource sourceLines).2 ((readSource sourceLines).1.map fetch)

/-- Prefix names tried by the statistics loop (lines 444-445), in source
order. -/
def countTypeNames : List String :=
  ["DOMAIN", "DOMAIN-SUFFIX", "DOMAIN-KEYWORD", "IP-CIDR", "IP-CIDR6",
   "USER-AGENT", "IP-ASN", "PROCESS-NAME"]

/-- The statistics bucket of one rule (lines 441-454). -/
def ruleTypeName (rule : String) : String :=
  match countTypeNames.find? (fun p => startsWithS rule (p ++ ",") || startsWithS rule (p ++ ":")) with
  | some p => p
  | none => "OTHER"

/-- The nine possible bucket names, in the lexicographic order in which
`sorted(rule_types_count.items())` enumerates them. -/
def sortedCountNames : List String :=
  ["DOMAIN", "DOMAIN-KEYWORD", "DOMAIN-SUFFIX", "IP-ASN", "IP-CIDR", "IP-CIDR6",
   "OTHER", "PROCESS-NAME", "USER-AGENT"]

/-- The header's per-type count lines (lines 466-468): one `(name, count)`
pair per non-empty bucket, in sorted name order.  Enumerating the fixed
bucket-name list and dropping zero counts produces exactly the non-zero
entries of `sorted(rule_types_count.items())`. -/
def typeCountsOf (all : Finset String) : List (String × Nat) :=
  sortedCountNames.filterMap fun t =>
    let c := (all.filter fun r => ruleTypeName r = t).card
    if 0 < c then some (t, c) else none

/-- Scan behind `re.sub(r',\s+', ',', s)` on the character list: each comma swallows the
whitespace run that immediately follows it.  As with `stripDashesAux`, the
scan is run with an iteration bound that the strictly shrinking input can
never exhaust, making the recursion structural. -/
def collapseCommaWsAux : Nat → List Char → List Char
  | 0, l => l
  | _ + 1, [] => []
  | fuel + 1, c :: rest =>
    if c = ',' then ',' :: collapseCommaWsAux fuel (rest.dropWhile fun d => d.isWhitespace)
    else c :: collapseCommaWsAux fuel rest

/-- Model of `re.sub(r',\s+', ',', s)`. -/
def collapseCommaWs (l : List Char) : List Char := collapseCommaWsAux l.length l

/-- Python `sorted(s)` for a rule set: the ascending enumeration of the set,
computed by insertion sort so that it evaluates by kernel reduction; any two
sorted enumerations of permuted lists coincide, so the lift is well defined. -/
def sortedRules (s : Finset String) : List String :=
  Quotient.liftOn s.val (fun l => l.insertionSort (· ≤ ·)) fun a b hab =>
    List.eq_of_perm_of_sorted
      ((List.perm_insertionSort _ a).trans (hab.trans (List.perm_insertionSort _ b).symm))
      (List.sorted_insertionSort _ a) (List.sorted_insertionSort _ b)

/-- The write-time clean-up of one collected rule (lines 476-497): drop it if
its trimmed text is `payload:`, strip leading dashes, collapse whitespace
after commas, drop it if empty. -/
def cleanRule (rule : String) : Option String :=
  if pyStrip rule = "payload:" then none
  else
    let c := stripDashes rule
    let c2 : String := ⟨collapseCommaWs c.data⟩
    if c2 = "" then none else some c2

/-- Model of `filtered_rules` (lines 475-497): the collected set after clean-up (the
loop iterates over the collected set; the enumeration order does not affect
the resulting set). -/
def filteredRules (all : Finset String) : Finset String :=
  ((sortedRules all).filterMap cleanRule).toFinset

/-- The body of the output document: `sorted(filtered_rules)` (line 500). -/
def writtenBody (all : Finset String) : List String :=
  sortedRules (filteredRules all)

/-- The data of one written output document: the header's per-type count
lines and `# TOTAL:` value, and the body's rule lines in order. -/
structure OutputDoc where
  typeCounts : List (String × Nat)
  total : Nat
  body : List String
deriving DecidableEq

/-- Model of `process_source_file` after reading the descriptor: skip when nothing was
read (lines 408-410) or nothing was collected (lines 435-437), otherwise
produce the document (`total` is `len(all_rules)`, line 471). -/
def process_source_file (sourceLines : List String) (fetch : String → Finset String) :
    Option OutputDoc :=
  let us := (readSource sourceLines).1
  let ds := (readSource sourceLines).2
  if us = [] ∧ ds = ∅ then none
  else
    let all := collectAllRules ds (us.map fetch)
    if all = ∅ then none
    else some { typeCounts := typeCountsOf all, total := all.card, body := writtenBody all }

/-- Reading an ASN source descriptor (lines 252-263): URLs only. -/
def readAsnSource : List String → List String
  | [] => []
  | l :: ls =>
    let st := pyStrip l
    if st = "" || startsWithS st "#" then readAsnSource ls
    else if startsWithS st "http://" || startsWithS st "https://" then st :: readAsnSource ls
    else readAsnSource ls

/-- The collected rule set of one ASN source descriptor. -/
def asnCollectedRules (sourceLines : List String) (fetch : String → Finset String) :
    Finset String :=
  ((readAsnSource sourceLines).map fetch).foldl (· ∪ ·) ∅

/-- The data of one written ASN output document. -/
structure AsnOut where
  total : Nat
  body : List String
deriving DecidableEq

/-- Model of `process_asn_source_file`: skip when no URL was read (lines 271-273) or no
rule was collected (lines 292-294), otherwise write the sorted rules. -/
def process_asn_source_file (sourceLines : List String) (fetch : String → Finset String) :
    Option AsnOut :=
  if readAsnSource sourceLines = [] then none
  else
    let all := asnCollectedRules sourceLines fetch
    if all = ∅ then none
    else some { total := all.card, body := sortedRules all }

/-! ### Claim-side comma predicates -/

/-- A comma immediately followed by whitespace occurs. -/
def hasCommaThenWs : List Char → Bool
  | a :: b :: r => (a = ',' && b.isWhitespace) || hasCommaThenWs (b :: r)
  | _ => false

/-- Whitespace immediately followed by a comma occurs. -/
def hasWsThenComma : List Char → Bool
  | a :: b :: r => (a.isWhitespace && b = ',') || hasWsThenComma (b :: r)
  | _ => false

/-- The claim's canonical-comma property: no comma has whitespace on either
side. -/
def commaNoWsEitherSide (s : String) : Bool :=
  !hasCommaThenWs s.data && !hasWsThenComma s.data

/-! ## Helper lemmas -/

theorem length_sortedRules (s : Finset String) : (sortedRules s).length = s.card := by
  rcases s with ⟨m, hm⟩
  refine Quotient.inductionOn m (fun l => ?_) hm
  intro _
  simp only [sortedRules, Finset.card]
  exact (List.perm_insertionSort (· ≤ ·) l).length_eq

theorem mem_sortedRules {a : String} {s : Finset String} : a ∈ sortedRules s ↔ a ∈ s := by
  rcases s with ⟨m, hm⟩
  refine Quotient.inductionOn m (fun l => ?_) hm
  intro _
  simp only [sortedRules, Finset.mem_mk]
  exact (List.perm_insertionSort (· ≤ ·) l).mem_iff

theorem filterMap_fixed {α : Type} (f : α → Option α) :
    ∀ l : List α, (∀ x ∈ l, f x = some x) → l.filterMap f = l
  | [], _ => rfl
  | x :: t, h => by
    rw [List.filterMap_cons, h x (List.mem_cons_self x t),
      filterMap_fixed f t fun y hy => h y (List.mem_cons_of_mem x hy)]

/-! ## C3 / C4: fetcher behaviour -/

theorem downloadFrom_timeout_step (url : String) (outcomes : Nat → AttemptOutcome)
    (attempt m : Nat) (h : outcomes attempt = .timeout) :
    downloadFrom url outcomes attempt (m + 1) =
      ⟨(downloadFrom url outcomes (attempt + 1) m).rules,
       (downloadFrom url outcomes (attempt + 1) m).attempts + 1,
       if 0 < m then (downloadFrom url outcomes (attempt + 1) m).sleeps + 1
       else (downloadFrom url outcomes (attempt + 1) m).sleeps⟩ := by
  conv_lhs => rw [downloadFrom]
  rw [h]

theorem downloadFrom_connError_step (url : String) (outcomes : Nat → AttemptOutcome)
    (attempt m : Nat) (h : outcomes attempt = .connError) :
    downloadFrom url outcomes attempt (m + 1) =
      ⟨(downloadFrom url outcomes (attempt + 1) m).rules,
       (downloadFrom url outcomes (attempt + 1) m).attempts + 1,
       if 0 < m then (downloadFrom url outcomes (attempt + 1) m).sleeps + 1
       else (downloadFrom url outcomes (attempt + 1) m).sleeps⟩ := by
  conv_lhs => rw [downloadFrom]
  rw [h]

theorem downloadFrom_http4xx_step (url : String) (outcomes : Nat → AttemptOutcome)
    (attempt m s : Nat) (h : outcomes attempt = .httpError s) (hs : 400 ≤ s ∧ s < 500) :
    downloadFrom url outcomes attempt (m + 1) = ⟨∅, 1, 0⟩ := by
  conv_lhs => rw [downloadFrom]
  rw [h]
  simp only [if_pos hs]

theorem downloadFrom_httpRetry_step (url : String) (outcomes : Nat → AttemptOutcome)
    (attempt m s : Nat) (h : outcomes attempt = .httpError s) (hs : ¬(400 ≤ s ∧ s < 500)) :
    downloadFrom url outcomes attempt (m + 1) =
      ⟨(downloadFrom url outcomes (attempt + 1) m).rules,
       (downloadFrom url outcomes (attempt + 1) m).attempts + 1,
       if 0 < m then (downloadFrom url outcomes (attempt + 1) m).sleeps + 1
       else (downloadFrom url outcomes (attempt + 1) m).sleeps⟩ := by
  conv_lhs => rw [downloadFrom]
  rw [h]
  simp only [if_neg hs]

theorem downloadFrom_clientError (url : String) (outcomes : Nat → AttemptOutcome)
    (s : Nat) (hs : 400 ≤ s ∧ s < 500) :
    ∀ (k attempt remaining : Nat), k < remaining →
      (∀ j, j < k → retriable (outcomes (attempt + j))) →
      outcomes (attempt + k) = .httpError s →
      downloadFrom url outcomes attempt remaining = ⟨∅, k + 1, k⟩ := by
  intro k
  induction k with
  | zero =>
    intro attempt remaining hk hpre hout
    obtain ⟨m, rfl⟩ := Nat.exists_eq_add_of_lt hk
    rw [Nat.add_zero] at hout
    rw [show 0 + m + 1 = m + 1 by omega]
    exact downloadFrom_http4xx_step url outcomes attempt m s hout hs
  | succ k ih =>
    intro attempt remaining hk hpre hout
    obtain ⟨m, rfl⟩ := Nat.exists_eq_add_of_lt hk
    have hret : retriable (outcomes attempt) := by
      have := hpre 0 (Nat.succ_pos k)
      simpa using this
    have hrec : downloadFrom url outcomes (attempt + 1) (k + m + 1) = ⟨∅, k + 1, k⟩ := by
      refine ih (attempt + 1) (k + m + 1) (by omega) (fun j hj => ?_) ?_
      · have := hpre (j + 1) (by omega)
        simpa [Nat.add_assoc, Nat.add_comm 1 j] using this
      · have he : attempt + 1 + k = attempt + (k + 1) := by omega
        rw [he, hout]
    have hrw : k + 1 + m + 1 = (k + m + 1) + 1 := by omega
    rw [hrw]
    cases hoc : outcomes attempt with
    | success content => rw [hoc] at hret; simp [retriable] at hret
    | timeout =>
      rw [downloadFrom_timeout_step url outcomes attempt (k + m + 1) hoc, hrec]
      simp
    | httpError s2 =>
      rw [hoc] at hret
      rw [downloadFrom_httpRetry_step url outcomes attempt (k + m + 1) s2 hoc hret, hrec]
      simp
    | connError =>
      rw [downloadFrom_connError_step url outcomes attempt (k + m + 1) hoc, hrec]
      simp
    | unexpected => rw [hoc] at hret; simp [retriable] at hret

theorem downloadFrom_allTimeout (url : String) (outcomes : Nat → AttemptOutcome) :
    ∀ (remaining attempt : Nat),
      (∀ j, j < remaining → outcomes (attempt + j) = .timeout) →
      downloadFrom url outcomes attempt remaining = ⟨∅, remaining, remaining - 1⟩ := by
  intro remaining
  induction remaining with
  | zero => intro attempt _; rfl
  | succ m ih =>
    intro attempt h
    have h0 : outcomes attempt = .timeout := by simpa using h 0 (Nat.succ_pos m)
    have hrec : downloadFrom url outcomes (attempt + 1) m = ⟨∅, m, m - 1⟩ := by
      refine ih (attempt + 1) fun j hj => ?_
      have := h (j + 1) (by omega)
      simpa [Nat.add_assoc, Nat.add_comm 1 j] using this
    rw [downloadFrom_timeout_step url outcomes attempt m h0, hrec]
    cases m with
    | zero => simp
    | succ m2 => simp

/-! ## Claim theorems -/

/-- C1: the rule classifier maps `"1.2.3.4/24"` to type IP-CIDR;
`"*.example.com"` and `".example.com"` to type DOMAIN-SUFFIX with the leading
marker stripped, so the value is `"example.com"`; `"www.example.com"` to type
DOMAIN; `"ads"` to type DOMAIN-KEYWORD; and passes `"DOMAIN,example.org"`
through unchanged as an already-typed rule. -/
theorem c1_classifier_table :
    categorizeRule "1.2.3.4/24" = .typed "IP-CIDR" "1.2.3.4/24" ∧
      categorizeRule "*.example.com" = .typed "DOMAIN-SUFFIX" "example.com" ∧
      categorizeRule ".example.com" = .typed "DOMAIN-SUFFIX" "example.com" ∧
      categorizeRule "www.example.com" = .typed "DOMAIN" "www.example.com" ∧
      categorizeRule "ads" = .typed "DOMAIN-KEYWORD" "ads" ∧
      categorizeRule "DOMAIN,example.org" = .pre "DOMAIN,example.org" := by
  decide

/-- C6: classification is idempotent on already-typed tokens.  Whenever a
token starts with a known rule-type name followed by a comma or colon
separator (the recognised prefix list), the classifier passes it through
verbatim, so classifying the rendered result of classification changes
nothing. -/
theorem c6_already_typed_pass_through (r : String)
    (h : categorizeTyped.any (fun p => startsWithS r p) = true) :
    categorizeRule r = .pre r ∧
      categorizeRule (renderClass (categorizeRule r)) = categorizeRule r := by
  have h1 : categorizeRule r = .pre r := by
    unfold categorizeRule
    rw [if_pos h]
  refine ⟨h1, ?_⟩
  rw [h1]
  exact h1

/-- Witness for C6 at the concrete already-typed token `DOMAIN,example.org`. -/
theorem c6_already_typed_pass_through_witness :
    categorizeRule "DOMAIN,example.org" = .pre "DOMAIN,example.org" ∧
      categorizeRule (renderClass (categorizeRule "DOMAIN,example.org")) =
        categorizeRule "DOMAIN,example.org" :=
  c6_already_typed_pass_through "DOMAIN,example.org" (by decide)

/-- C3: when an attempt of the download loop fails with an HTTP 4xx client
error (after `k` earlier retriable failures), the loop terminates at once:
exactly `k + 1` attempts are made, only the `k` sleeps between the earlier
attempts happen (none after the 4xx), and the empty rule set is returned. -/
theorem c3_client_error_not_retried (url : String) (outcomes : Nat → AttemptOutcome)
    (retries k s : Nat) (hk : k < retries)
    (hpre : ∀ j, j < k → retriable (outcomes j))
    (hout : outcomes k = .httpError s) (hs : 400 ≤ s ∧ s < 500) :
    download_content url outcomes retries = ⟨∅, k + 1, k⟩ := by
  unfold download_content
  refine downloadFrom_clientError url outcomes s hs k 0 retries hk (fun j hj => ?_) ?_
  · rw [Nat.zero_add]; exact hpre j hj
  · rw [Nat.zero_add]; exact hout

/-- Witness for C3: a 404 on the first attempt with the default 3 retries. -/
theorem c3_client_error_not_retried_witness :
    download_content "u" (fun _ => .httpError 404) 3 = ⟨∅, 1, 0⟩ :=
  c3_client_error_not_retried "u" (fun _ => .httpError 404) 3 0 404 (by decide)
    (fun j hj => absurd hj (Nat.not_lt_zero j)) rfl (by decide)

/-- C4: a URL whose every attempt times out is attempted exactly `retries`
times, with the fixed delay slept only between attempts (`retries - 1`
sleeps), and contributes the empty rule set; merging that empty set into any
batch leaves the rules collected from all other URLs unchanged. -/
theorem c4_timeout_retry_bound (url : String) (outcomes : Nat → AttemptOutcome)
    (retries : Nat) (_hR : 0 < retries)
    (hT : ∀ j, j < retries → outcomes j = .timeout) :
    download_content url outcomes retries = ⟨∅, retries, retries - 1⟩ ∧
      ∀ (direct : Finset String) (others : List (Finset String)),
        collectAllRules direct ((download_content url outcomes retries).rules :: others) =
          collectAllRules direct others := by
  have h1 : download_content url outcomes retries = ⟨∅, retries, retries - 1⟩ := by
    unfold download_content
    refine downloadFrom_allTimeout url outcomes retries 0 fun j hj => ?_
    rw [Nat.zero_add]; exact hT j hj
  refine ⟨h1, fun direct others => ?_⟩
  rw [h1]
  simp [collectAllRules]

/-- Witness for C4: three timeouts with the default 3 retries, merged into a
batch holding one direct rule and one other URL result. -/
theorem c4_timeout_retry_bound_witness :
    download_content "u" (fun _ => .timeout) 3 = ⟨∅, 3, 2⟩ ∧
      collectAllRules {"a"} [(download_content "u" (fun _ => .timeout) 3).rules, {"b"}] =
        collectAllRules {"a"} [{"b"}] := by
  have h := c4_timeout_retry_bound "u" (fun _ => .timeout) 3 (by decide)
    (fun j _ => rfl)
  exact ⟨h.1, h.2 {"a"} [{"b"}]⟩

/-- C10: a source descriptor whose collected rule set (literal rules plus all
downloaded rules) is empty produces no output document at all, both for
ordinary and for ASN source files. -/
theorem c10_empty_collection_no_output :
    (∀ sourceLines fetch, collectedRules sourceLines fetch = ∅ →
        process_source_file sourceLines fetch = none) ∧
      ∀ sourceLines fetch, asnCollectedRules sourceLines fetch = ∅ →
        process_asn_source_file sourceLines fetch = none := by
  constructor
  · intro sl f h
    unfold collectedRules at h
    unfold process_source_file
    dsimp only
    rw [h]
    split <;> rfl
  · intro sl f h
    unfold process_asn_source_file
    dsimp only
    rw [h]
    split <;> rfl

/-- Witness for C10: a descriptor holding one URL whose download yields
nothing. -/
theorem c10_empty_collection_no_output_witness :
    process_source_file ["http://x"] (fun _ => ∅) = none ∧
      process_asn_source_file ["http://x"] (fun _ => ∅) = none :=
  ⟨c10_empty_collection_no_output.1 ["http://x"] (fun _ => ∅) (by decide),
   c10_empty_collection_no_output.2 ["http://x"] (fun _ => ∅) (by decide)⟩

/-! ## C2: fallback extraction -/

theorem stripDashesAux_no_dash {l : List Char} (h : ['-'].isPrefixOf l = false) :
    ∀ fuel, stripDashesAux fuel l = l := by
  intro fuel
  cases fuel with
  | zero => rfl
  | succ n =>
    unfold stripDashesAux
    rw [h]
    simp

theorem stripDashes_no_dash {s : String} (h : startsWithS s "-" = false) :
    stripDashes s = s := by
  unfold stripDashes
  rw [stripDashesAux_no_dash h]

theorem specFDT_cons (l : String) (ls : List String) :
    specFallbackDashTokens (l :: ls) =
      (match specDashToken l with
       | none => specFallbackDashTokens ls
       | some b => insert b (specFallbackDashTokens ls)) := by
  unfold specFallbackDashTokens
  rw [List.filterMap_cons]
  cases specDashToken l
  · rfl
  · simp

theorem specPT_cons (l : String) (ls : List String) :
    specPlainTokens (l :: ls) =
      (match specPlainToken l with
       | none => specPlainTokens ls
       | some b => insert b (specPlainTokens ls)) := by
  unfold specPlainTokens
  rw [List.filterMap_cons]
  cases specPlainToken l
  · rfl
  · simp

theorem image_fallbackProcess (lines : List String) :
    (fallbackScanProcess lines).image stripDashes = specFallbackDashTokens lines := by
  induction lines with
  | nil => rfl
  | cons l ls ih =>
    rw [specFDT_cons]
    unfold fallbackScanProcess specDashToken
    dsimp only
    by_cases h1 : pyStrip l = ""
    · simpa [h1] using ih
    · by_cases h2 : startsWithS (pyStrip l) "#" = true
      · simpa [h1, h2] using ih
      · rw [Bool.not_eq_true] at h2
        by_cases h4 : startsWithS (pyStrip l) "-" = true
        · have h3 : pyStrip l ≠ "payload:" := by
            intro he
            rw [he] at h4
            exact absurd h4 (by decide)
          by_cases h5 : pyStrip (strTail (pyStrip l)) = ""
          · simpa [h1, h2, h3, h4, h5] using ih
          · simp [h1, h2, h3, h4, h5, Finset.image_insert, ih]
        · rw [Bool.not_eq_true] at h4
          by_cases h3 : pyStrip l = "payload:"
          · have h4b : startsWithS "payload:" "-" = false := rfl
            simpa [h1, h2, h3, h4, h4b] using ih
          · simpa [h1, h2, h3, h4] using ih

theorem image_fallbackMerge (lines : List String) :
    (fallbackScanMerge lines).image stripDashes =
      specFallbackDashTokens lines ∪ specPlainTokens lines := by
  induction lines with
  | nil => rfl
  | cons l ls ih =>
    rw [specFDT_cons, specPT_cons]
    unfold fallbackScanMerge specDashToken specPlainToken
    dsimp only
    by_cases h1 : pyStrip l = ""
    · simpa [h1] using ih
    · by_cases h2 : startsWithS (pyStrip l) "#" = true
      · simpa [h1, h2] using ih
      · rw [Bool.not_eq_true] at h2
        by_cases h4 : startsWithS (pyStrip l) "-" = true
        · have h3 : pyStrip l ≠ "payload:" := by
            intro he
            rw [he] at h4
            exact absurd h4 (by decide)
          by_cases h5 : pyStrip (strTail (pyStrip l)) = ""
          · simpa [h1, h2, h3, h4, h5] using ih
          · simp [h1, h2, h3, h4, h5, Finset.image_insert, ih, Finset.insert_union]
        · rw [Bool.not_eq_true] at h4
          by_cases h3 : pyStrip l = "payload:"
          · have h4b : startsWithS "payload:" "-" = false := rfl
            simpa [h1, h2, h3, h4, h4b] using ih
          · by_cases h6 : commentMarks.any (fun p => startsWithS (pyStrip l) p) = true
            · simpa [h1, h2, h3, h4, h6] using ih
            · rw [Bool.not_eq_true] at h6
              simp [h1, h2, h3, h4, h6, Finset.image_insert, ih,
                stripDashes_no_dash h4, Finset.union_insert]

theorem parse_yaml_fallback_reduce (lines : List String) (h : payloadRules lines = ∅) :
    parse_yaml_content lines = (fallbackScanProcess lines).image stripDashes := by
  unfold parse_yaml_content
  dsimp only
  rw [h]
  simp

theorem process_yaml_fallback_reduce (lines : List String) (h : payloadRules lines = ∅) :
    process_yaml_content lines = (fallbackScanMerge lines).image stripDashes := by
  unfold process_yaml_content
  dsimp only
  rw [h]
  simp

/-- C2 (amended): when the document has no `payload:` line or the payload
region yields no token (equivalently, the standard scan `payloadRules` comes
back empty), both parsers fall back to scanning the whole document;
`parse_yaml_content` (`process_rules.py`) then returns exactly the contents
of the dash-prefixed lines with dashes and surrounding whitespace stripped,
while `process_yaml_content` (`merge_rules.py`) additionally keeps non-dash
lines that do not start with a comment marker as verbatim tokens. -/
theorem c2_fallback_token_sets (lines : List String) (h : payloadRules lines = ∅) :
    parse_yaml_content lines = specFallbackDashTokens lines ∧
      process_yaml_content lines = specFallbackDashTokens lines ∪ specPlainTokens lines := by
  constructor
  · rw [parse_yaml_fallback_reduce lines h]
    exact image_fallbackProcess lines
  · rw [process_yaml_fallback_reduce lines h]
    exact image_fallbackMerge lines

/-- Witness for C2 at a concrete document with a dash line, a plain line and
a comment line. -/
theorem c2_fallback_token_sets_witness :
    parse_yaml_content ["- a", "b", "# c"] = specFallbackDashTokens ["- a", "b", "# c"] ∧
      process_yaml_content ["- a", "b", "# c"] =
        specFallbackDashTokens ["- a", "b", "# c"] ∪ specPlainTokens ["- a", "b", "# c"] :=
  c2_fallback_token_sets ["- a", "b", "# c"] (by decide)

/-- Counterexample to C2 as stated: the document `["abc"]` has no `payload:`
line, so the fallback runs, yet `merge_rules.process_yaml_content` keeps the
non-dash line `"abc"` as a token, whereas the claim says the resulting token
set holds the dash-prefixed lines' contents only. -/
theorem c2_fallback_token_sets_cex :
    payloadRules ["abc"] = ∅ ∧ "abc" ∈ process_yaml_content ["abc"] ∧
      "abc" ∉ specFallbackDashTokens ["abc"] := by
  decide

/-! ## C7 / C8 / C9: the written document -/

theorem process_source_file_some {sl : List String} {f : String → Finset String}
    {doc : OutputDoc} (h : process_source_file sl f = some doc) :
    doc = { typeCounts := typeCountsOf (collectedRules sl f),
            total := (collectedRules sl f).card,
            body := writtenBody (collectedRules sl f) } := by
  unfold process_source_file at h
  dsimp only at h
  by_cases h1 : (readSource sl).1 = [] ∧ (readSource sl).2 = ∅
  · rw [if_pos h1] at h
    exact absurd h (by simp)
  · rw [if_neg h1] at h
    by_cases h2 : collectAllRules (readSource sl).2 (List.map f (readSource sl).1) = ∅
    · rw [if_pos h2] at h
      exact absurd h (by simp)
    · rw [if_neg h2] at h
      unfold collectedRules
      exact (Option.some.inj h).symm

/-- C7 (amended): in every written document, the `# TOTAL:` header value is
the number of distinct collected rules *before* the write-time clean-up; it
equals the number of body lines exactly when every collected rule is already
clean (`cleanRule` leaves it unchanged), which the clean-up pass can otherwise
shrink. -/
theorem c7_total_vs_body (sl : List String) (f : String → Finset String)
    (doc : OutputDoc) (h : process_source_file sl f = some doc) :
    doc.total = (collectedRules sl f).card ∧
      ((∀ r ∈ collectedRules sl f, cleanRule r = some r) →
        doc.body.length = doc.total) := by
  have hd := process_source_file_some h
  subst hd
  refine ⟨rfl, fun hcl => ?_⟩
  show (writtenBody (collectedRules sl f)).length = (collectedRules sl f).card
  rw [writtenBody, length_sortedRules]
  have hfix : filteredRules (collectedRules sl f) = collectedRules sl f := by
    unfold filteredRules
    rw [filterMap_fixed cleanRule _ fun x hx => hcl x (mem_sortedRules.mp hx)]
    ext a
    rw [List.mem_toFinset, mem_sortedRules]
  rw [hfix]

/-- Witness for C7: one clean collected rule, total 1, one body line. -/
theorem c7_total_vs_body_witness :
    ({ typeCounts := [("DOMAIN", 1)], total := 1,
       body := ["DOMAIN,example.org"] } : OutputDoc).body.length =
      ({ typeCounts := [("DOMAIN", 1)], total := 1,
         body := ["DOMAIN,example.org"] } : OutputDoc).total :=
  (c7_total_vs_body ["DOMAIN,example.org"] (fun _ => ∅)
      { typeCounts := [("DOMAIN", 1)], total := 1, body := ["DOMAIN,example.org"] }
      (by decide)).2 (by decide)

/-- Counterexample to C7 as stated: a descriptor whose only rule is the
literal line `payload:` is collected (total 1) but filtered at write time, so
the `# TOTAL:` value 1 differs from the 0 rule lines in the body. -/
theorem c7_total_vs_body_cex :
    process_source_file ["payload:"] (fun _ => ∅) =
        some { typeCounts := [("OTHER", 1)], total := 1, body := [] } ∧
      ({ typeCounts := [("OTHER", 1)], total := 1, body := ([] : List String) } :
          OutputDoc).total ≠
        ({ typeCounts := [("OTHER", 1)], total := 1, body := ([] : List String) } :
            OutputDoc).body.length := by
  decide

theorem collapseAux_head? (fuel : Nat) (m : List Char) :
    (collapseCommaWsAux fuel m).head? = m.head? := by
  cases fuel with
  | zero => rfl
  | succ n =>
    cases m with
    | nil => rfl
    | cons c r =>
      by_cases hc : c = ','
      · subst hc
        simp [collapseCommaWsAux]
      · simp [collapseCommaWsAux, hc]

theorem hctw_cons (c : Char) (R : List Char) (hR : hasCommaThenWs R = false)
    (hc : ∀ d, R.head? = some d → c = ',' → d.isWhitespace = false) :
    hasCommaThenWs (c :: R) = false := by
  cases R with
  | nil => rfl
  | cons d R2 =>
    unfold hasCommaThenWs
    rw [hR]
    simp only [Bool.or_false]
    by_cases h : c = ','
    · have := hc d rfl h
      simp [h, this]
    · simp [h]

theorem length_dropWhileWs_le (rest : List Char) :
    (rest.dropWhile fun d => d.isWhitespace).length ≤ rest.length :=
  (List.dropWhile_suffix (l := rest) fun d : Char => d.isWhitespace).sublist.length_le

theorem collapse_no_comma_ws (fuel : Nat) :
    ∀ l : List Char, l.length ≤ fuel →
      hasCommaThenWs (collapseCommaWsAux fuel l) = false := by
  induction fuel with
  | zero =>
    intro l hl
    rw [List.eq_nil_of_length_eq_zero (Nat.le_zero.mp hl)]
    rfl
  | succ n ih =>
    intro l hl
    cases l with
    | nil => rfl
    | cons c rest =>
      rw [List.length_cons, Nat.succ_le_succ_iff] at hl
      by_cases hc : c = ','
      · subst hc
        have hlen : (rest.dropWhile fun d => d.isWhitespace).length ≤ n :=
          le_trans (length_dropWhileWs_le rest) hl
        unfold collapseCommaWsAux
        simp only [if_pos]
        refine hctw_cons ',' _ (ih _ hlen) ?_
        intro d hd _
        rw [collapseAux_head?] at hd
        have hw := List.head?_dropWhile_not (fun d => d.isWhitespace) rest
        rw [hd] at hw
        exact hw
      · unfold collapseCommaWsAux
        rw [if_neg hc]
        refine hctw_cons c _ (ih rest hl) ?_
        intro d _ hcc
        exact absurd hcc hc

theorem cleanRule_no_comma_ws {r b : String} (h : cleanRule r = some b) :
    hasCommaThenWs b.data = false := by
  unfold cleanRule at h
  dsimp only at h
  by_cases h1 : pyStrip r = "payload:"
  · rw [if_pos h1] at h
    exact absurd h (by simp)
  · rw [if_neg h1] at h
    by_cases h2 : (⟨collapseCommaWs (stripDashes r).data⟩ : String) = ""
    · rw [if_pos h2] at h
      exact absurd h (by simp)
    · rw [if_neg h2] at h
      rw [← Option.some.inj h]
      exact collapse_no_comma_ws _ _ (le_refl _)

/-- C8 (amended): every rule line in a written document has no whitespace
immediately after any comma (the write-time normalisation collapses
`,\s+`); whitespace *before* a comma is not removed. -/
theorem c8_comma_canonical (sl : List String) (f : String → Finset String)
    (doc : OutputDoc) (h : process_source_file sl f = some doc) :
    ∀ b ∈ doc.body, hasCommaThenWs b.data = false := by
  have hd := process_source_file_some h
  subst hd
  intro b hb
  have hmem : b ∈ filteredRules (collectedRules sl f) := by
    have : b ∈ writtenBody (collectedRules sl f) := hb
    rw [writtenBody] at this
    exact mem_sortedRules.mp this
  unfold filteredRules at hmem
  rw [List.mem_toFinset] at hmem
  obtain ⟨r, _, hcr⟩ := List.mem_filterMap.mp hmem
  exact cleanRule_no_comma_ws hcr

/-- Witness for C8: the rule `IP-CIDR, 1.2.3.4/24, no-resolve` is written
with the whitespace after both commas removed. -/
theorem c8_comma_canonical_witness :
    hasCommaThenWs "IP-CIDR,1.2.3.4/24,no-resolve".data = false :=
  c8_comma_canonical ["IP-CIDR, 1.2.3.4/24, no-resolve"] (fun _ => ∅)
    { typeCounts := [("IP-CIDR", 1)], total := 1,
      body := ["IP-CIDR,1.2.3.4/24,no-resolve"] }
    (by decide) "IP-CIDR,1.2.3.4/24,no-resolve" (by decide)

/-- Counterexample to C8 as stated: a collected rule with whitespace before a
comma is written unchanged, so a comma with whitespace on its left reaches
the output. -/
theorem c8_comma_canonical_cex :
    process_source_file ["DOMAIN ,example.com"] (fun _ => ∅) =
        some { typeCounts := [("OTHER", 1)], total := 1,
               body := ["DOMAIN ,example.com"] } ∧
      commaNoWsEitherSide "DOMAIN ,example.com" = false := by
  decide

/-- C9: the payload-introducer keyword written as the literal source line
`- payload:` survives to the output body: the write-time filter drops only
rules whose trimmed text is exactly `payload:`, but the subsequent
dash-stripping turns `- payload:` into `payload:` after the filter already
ran, so the line `payload:` is written — contradicting both the claim and the
filter's own stated purpose. -/
theorem c9_payload_line_written :
    process_source_file ["- payload:"] (fun _ => ∅) =
      some { typeCounts := [("OTHER", 1)], total := 1, body := ["payload:"] } := by
  decide

/-! ## C5: ASN annotator -/

/-- The ends of the list carry no whitespace. -/
def noWsEnds (l : List Char) : Prop :=
  (∀ c ∈ l.head?, c.isWhitespace = false) ∧ ∀ c ∈ l.getLast?, c.isWhitespace = false

theorem dropWhile_eq_self_of_head {l : List Char}
    (h : ∀ c ∈ l.head?, c.isWhitespace = false) :
    (l.dropWhile fun c => c.isWhitespace) = l := by
  cases l with
  | nil => rfl
  | cons c t => exact List.dropWhile_cons_of_neg (by simp [h c rfl])

theorem suffix_getLast? {X Y : List Char} (h : X <:+ Y) (hne : X ≠ []) :
    Y.getLast? = X.getLast? := by
  obtain ⟨pre, rfl⟩ := h
  rw [List.getLast?_append]
  cases hx : X.getLast? with
  | none => exact absurd (List.getLast?_eq_none_iff.mp hx) hne
  | some c => simp

theorem stripChars_head? {l : List Char} (h : stripChars l ≠ []) :
    (stripChars l).head? = (l.dropWhile fun c => c.isWhitespace).head? := by
  set A := l.dropWhile fun c => c.isWhitespace with hA
  set B := A.reverse.dropWhile fun c => c.isWhitespace with hB
  have hstrip : stripChars l = B.reverse := rfl
  rw [hstrip, List.head?_reverse]
  have hBne : B ≠ [] := by
    intro hb
    rw [hstrip, hb] at h
    exact h rfl
  have hsuf : B <:+ A.reverse := List.dropWhile_suffix _
  rw [← suffix_getLast? hsuf hBne, List.getLast?_reverse]

theorem noWsEnds_stripChars (l : List Char) : noWsEnds (stripChars l) := by
  constructor
  · intro c hc
    by_cases hne : stripChars l = []
    · rw [hne] at hc
      exact absurd hc (by simp)
    · rw [stripChars_head? hne] at hc
      have hw := List.head?_dropWhile_not (fun c => c.isWhitespace) l
      rw [hc] at hw
      exact hw
  · intro c hc
    have hgl : (stripChars l).getLast? =
        ((l.dropWhile fun c => c.isWhitespace).reverse.dropWhile
          fun c => c.isWhitespace).head? := by
      show (List.reverse _).getLast? = _
      rw [List.getLast?_reverse]
    rw [hgl] at hc
    have hw := List.head?_dropWhile_not (fun c => c.isWhitespace)
      ((l.dropWhile fun c => c.isWhitespace).reverse)
    rw [hc] at hw
    exact hw

theorem stripChars_of_noWsEnds {l : List Char} (h : noWsEnds l) : stripChars l = l := by
  unfold stripChars
  rw [dropWhile_eq_self_of_head h.1]
  have hrev : ∀ c ∈ l.reverse.head?, c.isWhitespace = false := by
    intro c hc
    rw [List.head?_reverse] at hc
    exact h.2 c hc
  rw [dropWhile_eq_self_of_head hrev, List.reverse_reverse]

theorem stripChars_idem (l : List Char) : stripChars (stripChars l) = stripChars l :=
  stripChars_of_noWsEnds (noWsEnds_stripChars l)

theorem isPrefixOf_single {c : Char} :
    ∀ l : List Char, [c].isPrefixOf l = true ↔ l.head? = some c := by
  intro l
  cases l with
  | nil => simp [List.isPrefixOf]
  | cons d t =>
    constructor
    · intro h
      have h2 : (c == d) = true ∧ List.isPrefixOf [] t = true := by
        simpa [List.isPrefixOf] using h
      rw [List.head?_cons, beq_iff_eq.mp h2.1]
    · intro h
      rw [List.head?_cons] at h
      have hdc : d = c := by injection h
      subst hdc
      simp [List.isPrefixOf]

theorem hasSub_iff (pat : List Char) : ∀ l : List Char, hasSub pat l = true ↔ pat <:+: l := by
  intro l
  induction l with
  | nil => simp [hasSub, List.isEmpty_iff]
  | cons c t ih =>
    unfold hasSub
    rw [Bool.or_eq_true, List.isPrefixOf_iff_prefix, ih, List.infix_cons_iff]

theorem takeBefore_pre (pat : List Char) : ∀ l : List Char, takeBefore pat l <+: l := by
  intro l
  induction l with
  | nil => exact List.prefix_refl []
  | cons c t ih =>
    unfold takeBefore
    by_cases h : pat.isPrefixOf (c :: t) = true
    · rw [if_pos h]
      exact List.nil_prefix
    · rw [if_neg h]
      exact (List.cons_prefix_cons).mpr ⟨rfl, ih⟩

theorem takeBefore_head? (pat : List Char) (l : List Char) (h : takeBefore pat l ≠ []) :
    (takeBefore pat l).head? = l.head? := by
  cases l with
  | nil => exact absurd rfl h
  | cons c t =>
    unfold takeBefore at h ⊢
    by_cases hp : pat.isPrefixOf (c :: t) = true
    · rw [if_pos hp] at h
      exact absurd rfl h
    · rw [if_neg hp]
      rfl

theorem not_infix_takeBefore (pat : List Char) (hp : pat ≠ []) :
    ∀ l : List Char, ¬ pat <:+: takeBefore pat l := by
  intro l
  induction l with
  | nil =>
    intro h
    exact hp (List.infix_nil.mp (by simpa [takeBefore] using h))
  | cons c t ih =>
    intro h
    unfold takeBefore at h
    by_cases hpre : pat.isPrefixOf (c :: t) = true
    · rw [if_pos hpre] at h
      exact hp (List.infix_nil.mp h)
    · rw [if_neg hpre] at h
      rcases List.infix_cons_iff.mp h with h2 | h2
      · have : pat <+: c :: t :=
          h2.trans ((List.cons_prefix_cons).mpr ⟨rfl, takeBefore_pre pat t⟩)
        rw [List.isPrefixOf_iff_prefix] at hpre
        exact hpre this
      · exact ih h2
theorem dslash_not_infix_append (A : List Char) (hA : ¬(['/', '/'] <:+: A)) :
    ¬(['/', '/'] <:+: A ++ ",no-resolve".data) := by
  induction A with
  | nil =>
    intro h
    rw [List.nil_append] at h
    have hs : hasSub ['/', '/'] ",no-resolve".data = false := by decide
    rw [(hasSub_iff _ _).mpr h] at hs
    exact absurd hs (by decide)
  | cons c A2 ih =>
    intro h
    rw [List.cons_append] at h
    rcases List.infix_cons_iff.mp h with h2 | h2
    · rcases List.cons_prefix_cons.mp h2 with ⟨hc, h3⟩
      cases A2 with
      | nil =>
        rw [List.nil_append] at h3
        have := (isPrefixOf_single _).mp (List.isPrefixOf_iff_prefix.mpr h3)
        exact absurd this (by decide)
      | cons d A3 =>
        rw [List.cons_append] at h3
        rcases List.cons_prefix_cons.mp h3 with ⟨hd, _⟩
        exact hA
          (List.cons_prefix_cons.mpr ⟨hc, List.cons_prefix_cons.mpr ⟨hd, List.nil_prefix⟩⟩).isInfix
    · have hA2 : ¬(['/', '/'] <:+: A2) := fun hi => hA (List.infix_cons_iff.mpr (Or.inr hi))
      exact ih hA2 h2

theorem mk_data : ∀ s : String, (⟨s.data⟩ : String) = s := fun _ => rfl

theorem startsWith_hash_iff (s : String) :
    startsWithS s "#" = true ↔ s.data.head? = some '#' :=
  isPrefixOf_single s.data

theorem pyStrip_of_trim {s : String} (h : stripChars s.data = s.data) : pyStrip s = s := by
  unfold pyStrip
  rw [h]

theorem data_ne_nil {s : String} (h : s ≠ "") : s.data ≠ [] := by
  intro hx
  exact h (String.ext hx)

/-- Core fixed-point step for the ASN annotator: a string with no surrounding
whitespace, no leading `#`, and no inline `//`, once given its `,no-resolve`
suffix (or kept as-is when it already ends with it), is a fixed point of
`asnLine`. -/
theorem asnLine_fixed_of (l2 : String) (hne : l2 ≠ "")
    (hhash : startsWithS l2 "#" = false)
    (hsub : hasSub ['/', '/'] l2.data = false)
    (htrim : stripChars l2.data = l2.data) :
    asnLine (if endsWithS (lowerS l2) ",no-resolve" then l2 else l2 ++ ",no-resolve") =
      some (if endsWithS (lowerS l2) ",no-resolve" then l2 else l2 ++ ",no-resolve") := by
  have hps : pyStrip l2 = l2 := pyStrip_of_trim htrim
  by_cases hend : endsWithS (lowerS l2) ",no-resolve" = true
  · rw [if_pos hend]
    unfold asnLine
    dsimp only
    simp [hps, hne, hhash, hsub, hend]
  · rw [Bool.not_eq_true] at hend
    rw [if_neg (by simp [hend])]
    have hl2ne : l2.data ≠ [] := data_ne_nil hne
    have hnwe : noWsEnds l2.data := htrim ▸ noWsEnds_stripChars l2.data
    have hdata : (l2 ++ ",no-resolve").data = l2.data ++ ",no-resolve".data := rfl
    have hnweT : noWsEnds (l2 ++ ",no-resolve").data := by
      rw [hdata]
      constructor
      · intro c hc
        rw [List.head?_append] at hc
        cases hh : l2.data.head? with
        | none => exact absurd (List.head?_eq_none_iff.mp hh) hl2ne
        | some d =>
          rw [hh] at hc
          have hcd : d = c := by simpa using hc
          exact hcd ▸ hnwe.1 d hh
      · intro c hc
        rw [List.getLast?_append] at hc
        have hgl : ",no-resolve".data.getLast? = some 'e' := by decide
        rw [hgl] at hc
        have hce : 'e' = c := by simpa using hc
        rw [← hce]
        decide
    have htrimT : stripChars (l2 ++ ",no-resolve").data = (l2 ++ ",no-resolve").data :=
      stripChars_of_noWsEnds hnweT
    have hneT : (l2 ++ ",no-resolve") ≠ "" := by
      intro hx
      have h0 : (l2 ++ ",no-resolve").data = [] := by rw [hx]
      rw [hdata] at h0
      exact absurd (List.append_eq_nil.mp h0).2 (by decide)
    have hhashT : startsWithS (l2 ++ ",no-resolve") "#" = false := by
      rw [Bool.eq_false_iff]
      intro hx
      have hh := (startsWith_hash_iff _).mp hx
      rw [hdata, List.head?_append] at hh
      cases hh2 : l2.data.head? with
      | none => exact absurd (List.head?_eq_none_iff.mp hh2) hl2ne
      | some d =>
        rw [hh2] at hh
        have : d = '#' := by simpa using hh
        subst this
        have : startsWithS l2 "#" = true := (startsWith_hash_iff l2).mpr hh2
        rw [hhash] at this
        exact Bool.false_ne_true this
    have hsubT : hasSub ['/', '/'] (l2 ++ ",no-resolve").data = false := by
      rw [Bool.eq_false_iff]
      intro hx
      have hni : ¬(['/', '/'] <:+: l2.data) := by
        intro hi
        have := (hasSub_iff _ _).mpr hi
        rw [hsub] at this
        exact Bool.false_ne_true this
      have hinf := (hasSub_iff _ _).mp hx
      rw [hdata] at hinf
      exact dslash_not_infix_append l2.data hni hinf
    have hendT : endsWithS (lowerS (l2 ++ ",no-resolve")) ",no-resolve" = true := by
      show (",no-resolve".data.isSuffixOf ((l2 ++ ",no-resolve").data.map Char.toLower)) = true
      rw [List.isSuffixOf_iff_suffix, hdata, List.map_append,
        show ",no-resolve".data.map Char.toLower = ",no-resolve".data by decide]
      exact List.suffix_append _ _
    have hpsT : pyStrip (l2 ++ ",no-resolve") = l2 ++ ",no-resolve" := pyStrip_of_trim htrimT
    generalize hts : l2 ++ ",no-resolve" = t at hneT hhashT hsubT hendT hpsT ⊢
    unfold asnLine
    dsimp only
    simp [hpsT, hneT, hhashT, hsubT, hendT]

theorem asn_tail_shape {l2 t : String}
    (h : (if l2 = "" then none
          else if endsWithS (lowerS l2) ",no-resolve" then some l2
          else some (l2 ++ ",no-resolve")) = some t) :
    l2 ≠ "" ∧
      t = if endsWithS (lowerS l2) ",no-resolve" then l2 else l2 ++ ",no-resolve" := by
  by_cases h4 : l2 = ""
  · rw [if_pos h4] at h
    exact absurd h (by simp)
  · rw [if_neg h4] at h
    refine ⟨h4, ?_⟩
    by_cases h5 : endsWithS (lowerS l2) ",no-resolve" = true
    · rw [if_pos h5] at h
      rw [if_pos h5]
      exact (Option.some.inj h).symm
    · rw [Bool.not_eq_true] at h5
      rw [if_neg (by simp [h5])] at h
      rw [if_neg (by simp [h5])]
      exact (Option.some.inj h).symm

/-- Decomposition of a produced ASN rule: it is the cleaned line content (no
surrounding whitespace, no leading `#`, no `//`), kept as-is or suffixed. -/
theorem asnLine_some {line t : String} (h : asnLine line = some t) :
    ∃ l2 : String, l2 ≠ "" ∧ startsWithS l2 "#" = false ∧
      hasSub ['/', '/'] l2.data = false ∧ stripChars l2.data = l2.data ∧
      t = if endsWithS (lowerS l2) ",no-resolve" then l2 else l2 ++ ",no-resolve" := by
  unfold asnLine at h
  dsimp only at h
  by_cases h1 : pyStrip line = ""
  · rw [if_pos h1] at h
    exact absurd h (by simp)
  · rw [if_neg h1] at h
    by_cases h2 : startsWithS (pyStrip line) "#" = true
    · rw [if_pos h2] at h
      exact absurd h (by simp)
    · rw [Bool.not_eq_true] at h2
      rw [if_neg (by simp [h2])] at h
      by_cases h3 : hasSub ['/', '/'] (pyStrip line).data = true
      · rw [if_pos h3] at h
        obtain ⟨hne, ht⟩ := asn_tail_shape h
        have hl2ne : (pyStrip ⟨takeBefore ['/', '/'] (pyStrip line).data⟩).data ≠ [] :=
          data_ne_nil hne
        have hxne : takeBefore ['/', '/'] (pyStrip line).data ≠ [] := by
          intro hx
          apply hne
          apply String.ext
          show stripChars (takeBefore ['/', '/'] (pyStrip line).data) = []
          rw [hx]
          rfl
        have hheadx : (takeBefore ['/', '/'] (pyStrip line).data).head? =
            (pyStrip line).data.head? := takeBefore_head? _ _ hxne
        have hnwl : noWsEnds (pyStrip line).data := noWsEnds_stripChars line.data
        have hxhead : ∀ c ∈ (takeBefore ['/', '/'] (pyStrip line).data).head?,
            c.isWhitespace = false := by
          rw [hheadx]
          exact hnwl.1
        have hl2head : (pyStrip ⟨takeBefore ['/', '/'] (pyStrip line).data⟩).data.head? =
            (takeBefore ['/', '/'] (pyStrip line).data).head? := by
          have hsc := stripChars_head?
            (l := takeBefore ['/', '/'] (pyStrip line).data) hl2ne
          rw [dropWhile_eq_self_of_head hxhead] at hsc
          exact hsc
        refine ⟨_, hne, ?_, ?_, stripChars_idem _, ht⟩
        · rw [Bool.eq_false_iff]
          intro hx2
          have hh := (startsWith_hash_iff _).mp hx2
          rw [hl2head, hheadx] at hh
          have h2b := (startsWith_hash_iff (pyStrip line)).mpr hh
          rw [h2] at h2b
          exact absurd h2b (by decide)
        · rw [Bool.eq_false_iff]
          intro hx2
          have hinf := (hasSub_iff _ _).mp hx2
          have hinf2 : ['/', '/'] <:+: takeBefore ['/', '/'] (pyStrip line).data :=
            hinf.trans (stripChars_within _)
          exact not_infix_takeBefore _ (by decide) _ hinf2
      · rw [Bool.not_eq_true] at h3
        rw [if_neg (show ¬(hasSub ['/', '/'] (pyStrip line).data = true) by
          simp [h3])] at h
        obtain ⟨hne, ht⟩ := asn_tail_shape h
        exact ⟨pyStrip line, hne, h2, h3, stripChars_idem line.data, ht⟩

/-- Fixed-point property of the ASN annotator on its own outputs. -/
theorem asnLine_out {line t : String} (h : asnLine line = some t) : asnLine t = some t := by
  obtain ⟨l2, hne, hhash, hsub, htrim, rfl⟩ := asnLine_some h
  exact asnLine_fixed_of l2 hne hhash hsub htrim

theorem process_asn_fixed (S : Finset String) (hfix : ∀ t ∈ S, asnLine t = some t) :
    process_asn_content (sortedRules S) = S := by
  unfold process_asn_content
  rw [filterMap_fixed asnLine _ fun x hx => hfix x (mem_sortedRules.mp hx)]
  ext a
  rw [List.mem_toFinset, mem_sortedRules]

/-- C5: the ASN annotator maps `"IP-ASN,140238 // note"` to
`"IP-ASN,140238,no-resolve"`; every rule it produces is one of its own fixed
points (the no-resolve modifier appears exactly once and is not duplicated),
so re-processing its own rendered output returns the same rule set. -/
theorem c5_asn_annotator :
    asnLine "IP-ASN,140238 // note" = some "IP-ASN,140238,no-resolve" ∧
      (∀ (lines : List String) (t : String), t ∈ process_asn_content lines →
        asnLine t = some t) ∧
      ∀ lines : List String,
        process_asn_content (sortedRules (process_asn_content lines)) =
          process_asn_content lines := by
  have hmem : ∀ (lines : List String) (t : String), t ∈ process_asn_content lines →
      asnLine t = some t := by
    intro lines t ht
    unfold process_asn_content at ht
    rw [List.mem_toFinset] at ht
    obtain ⟨line, _, hl⟩ := List.mem_filterMap.mp ht
    exact asnLine_out hl
  exact ⟨by decide, hmem, fun lines => process_asn_fixed _ (hmem lines)⟩

/-- Witness for C5: the produced rule `IP-ASN,140238,no-resolve` is a fixed
point of the annotator. -/
theorem c5_asn_annotator_witness :
    asnLine "IP-ASN,140238,no-resolve" = some "IP-ASN,140238,no-resolve" :=
  c5_asn_annotator.2.1 ["IP-ASN,140238 // note"] "IP-ASN,140238,no-resolve" (by decide)

end Rules

